import Mathlib

/-!
Shallow embedding of the GearTrade matching core (src/api_backend.py).

Tables are modelled as Lean lists in rowid (insertion) order.  Columns that
none of the modelled operations read (price, mileage, timestamps of likes,
photo paths, ...) are omitted from the row structures.  SQLite is run by the
backend with its default configuration, so FOREIGN KEY clauses are not
enforced; the embedding therefore performs no referential checks on insert,
exactly like the running program.  CURRENT_TIMESTAMP is modelled by a clock
field on the database state that is stamped onto inserted rows and bumped
once per mutating endpoint call.
-/

namespace GearTrade

/-- Row of the cars table (columns read by the modelled endpoints). -/
structure Car where
  id : Nat
  ownerId : Nat
  make : String
  model : String
  emoji : String
  isActive : Bool
deriving DecidableEq, Repr

/-- Row of the users table (columns read by the modelled endpoints). -/
structure User where
  id : Nat
  username : String
  location : String
deriving DecidableEq, Repr

/-- Row of the likes table and of the dismissals table: both carry
a user id and a car id with a UNIQUE(user_id, car_id) constraint. -/
structure Like where
  userId : Nat
  carId : Nat
deriving DecidableEq, Repr

/-- Row of the matches table: UNIQUE(user1_id, user2_id). -/
structure MatchRow where
  user1 : Nat
  user2 : Nat
  car1 : Nat
  car2 : Nat
  createdAt : Nat
deriving DecidableEq, Repr

/-- Row of the messages table. -/
structure Message where
  id : Nat
  senderId : Nat
  receiverId : Nat
  content : String
  isRead : Bool
  createdAt : Nat
deriving DecidableEq, Repr

/-- The persistent database state touched by the matching core. -/
structure DB where
  users : List User
  cars : List Car
  likes : List Like
  dismissals : List Like
  matchRows : List MatchRow
  messages : List Message
  nextMessageId : Nat
  clock : Nat
deriving DecidableEq, Repr

/-- INSERT OR IGNORE under the UNIQUE(user_id, car_id) constraint of the
likes and dismissals tables. -/
def insertOrIgnore (rows : List Like) (u c : Nat) : List Like :=
  if rows.any (fun l => l.userId == u && l.carId == c) then rows
  else rows ++ [⟨u, c⟩]

/-- SELECT from cars WHERE id matches (fetchone). -/
def findCar (cars : List Car) (cid : Nat) : Option Car :=
  cars.find? (fun c => c.id == cid)

/-- SELECT from users WHERE id matches (fetchone). -/
def findUser (users : List User) (uid : Nat) : Option User :=
  users.find? (fun u => u.id == uid)

/-- The reciprocal-like query of the swipe handler:
SELECT l.car_id FROM likes l JOIN cars c ON l.car_id = c.id
WHERE l.user_id = likerId AND c.owner_id = ownerId LIMIT 1. -/
def findReciprocalLike (likes : List Like) (cars : List Car)
    (likerId ownerId : Nat) : Option Nat :=
  (likes.find? (fun l => l.userId == likerId &&
      cars.any (fun c => c.id == l.carId && c.ownerId == ownerId))).map
    (fun l => l.carId)

/-- Plain INSERT into matches with the IntegrityError on
UNIQUE(user1_id, user2_id) swallowed by the handler. -/
def insertMatch (rows : List MatchRow) (m : MatchRow) : List MatchRow :=
  if rows.any (fun r => r.user1 == m.user1 && r.user2 == m.user2) then rows
  else rows ++ [m]

/-- Response body of POST /api/swipe.  The matched_user username field of
the source response is a lookup on matchedUserId in the users table and is
omitted here; no modelled property reads it. -/
structure SwipeResponse where
  success : Bool
  matched : Bool
  matchedUserId : Option Nat
deriving DecidableEq, Repr

/-- POST /api/swipe from src/api_backend.py.  On a like the handler first
inserts into likes (ignoring duplicates), then loads the target car, then
looks for a like by the target owner on any car of the swiper, and on
success inserts the canonical match row, ignoring a uniqueness conflict.
On a nope it only inserts into dismissals.  Any other action string falls
through and returns the default response. -/
def swipe (db : DB) (userId carId : Nat) (action : String) : DB × SwipeResponse :=
  if action = "like" then
    match findCar db.cars carId with
    | some theirCar =>
      match findReciprocalLike (insertOrIgnore db.likes userId carId) db.cars
          theirCar.ownerId userId with
      | some myCarId =>
          ({ db with likes := insertOrIgnore db.likes userId carId,
                     matchRows := insertMatch db.matchRows
                       ⟨min userId theirCar.ownerId, max userId theirCar.ownerId,
                        myCarId, theirCar.id, db.clock⟩,
                     clock := db.clock + 1 },
           ⟨true, true, some theirCar.ownerId⟩)
      | none =>
          ({ db with likes := insertOrIgnore db.likes userId carId,
                     clock := db.clock + 1 },
           ⟨true, false, none⟩)
    | none =>
        ({ db with likes := insertOrIgnore db.likes userId carId,
                   clock := db.clock + 1 },
         ⟨true, false, none⟩)
  else if action = "nope" then
    ({ db with dismissals := insertOrIgnore db.dismissals userId carId,
               clock := db.clock + 1 },
     ⟨true, false, none⟩)
  else
    ({ db with clock := db.clock + 1 }, ⟨true, false, none⟩)

/-- Insertion step of an ascending insertion sort on a Nat key; models the
ORDER BY ... ASC of the SQL queries. -/
def insertByKey {α : Type} (key : α → Nat) (x : α) : List α → List α
  | [] => [x]
  | y :: ys => if key x ≤ key y then x :: y :: ys else y :: insertByKey key x ys

/-- Ascending insertion sort on a Nat key. -/
def sortByKey {α : Type} (key : α → Nat) : List α → List α
  | [] => []
  | x :: xs => insertByKey key x (sortByKey key xs)

/-- Insertion step of a descending insertion sort on a Nat key; models the
ORDER BY ... DESC of the SQL queries. -/
def insertByKeyDesc {α : Type} (key : α → Nat) (x : α) : List α → List α
  | [] => [x]
  | y :: ys => if key y ≤ key x then x :: y :: ys else y :: insertByKeyDesc key x ys

/-- Descending insertion sort on a Nat key. -/
def sortByKeyDesc {α : Type} (key : α → Nat) : List α → List α
  | [] => []
  | x :: xs => insertByKeyDesc key x (sortByKeyDesc key xs)

/-- Unread count used by GET /api/matches: messages from senderId to
receiverId with is_read = 0. -/
def unreadFrom (msgs : List Message) (senderId receiverId : Nat) : Nat :=
  (msgs.filter (fun m =>
    m.senderId == senderId && m.receiverId == receiverId && m.isRead == false)).length

/-- One entry of the GET /api/matches response. -/
structure MatchView where
  matchedUserId : Nat
  theirCarId : Nat
  myCarId : Nat
  matchedUsername : String
  matchedLocation : String
  theirCarLabel : String
  theirEmoji : String
  unreadCount : Nat
  matchedAt : Nat
deriving DecidableEq, Repr

/-- Projection of one base row of the GET /api/matches query: the CASE
aliases resolve the counterpart relative to uid, then the row is joined
with users (on the counterpart id) and cars (on the counterpart car id);
a failed join drops the row. -/
def viewOf (db : DB) (uid : Nat) (m : MatchRow) : Option MatchView :=
  let mu := if m.user1 == uid then m.user2 else m.user1
  let their := if m.user1 == uid then m.car2 else m.car1
  let myc := if m.user1 == uid then m.car1 else m.car2
  match findUser db.users mu, findCar db.cars their with
  | some u, some c =>
      some { matchedUserId := mu, theirCarId := their, myCarId := myc,
             matchedUsername := u.username, matchedLocation := u.location,
             theirCarLabel := c.make ++ " " ++ c.model, theirEmoji := c.emoji,
             unreadCount := unreadFrom db.messages mu uid,
             matchedAt := m.createdAt }
  | _, _ => none

/-- GET /api/matches from src/api_backend.py: filter the matches table to
rows naming uid, order by matched_at descending, and project each row
through the user and car joins. -/
def get_matches (db : DB) (uid : Nat) : List MatchView :=
  (sortByKeyDesc (fun m => m.createdAt)
      (db.matchRows.filter (fun m => m.user1 == uid || m.user2 == uid))).filterMap
    (viewOf db uid)

/-- The UPDATE of GET /api/messages: mark a message read when it goes from
the counterpart to the reader and is still unread. -/
def markRead (otherUserId userId : Nat) (m : Message) : Message :=
  if m.senderId == otherUserId && m.receiverId == userId && m.isRead == false then
    { m with isRead := true }
  else m

/-- Conversation predicate of GET /api/messages. -/
def convBetween (userId otherUserId : Nat) (m : Message) : Bool :=
  (m.senderId == userId && m.receiverId == otherUserId) ||
  (m.senderId == otherUserId && m.receiverId == userId)

/-- GET /api/messages from src/api_backend.py: select the conversation
ordered by created_at ascending from the state before the update, then
mark the unread messages from the counterpart to the reader as read. -/
def get_messages (db : DB) (otherUserId userId : Nat) : DB × List Message :=
  let sorted := sortByKey (fun m => m.createdAt)
    (db.messages.filter (convBetween userId otherUserId))
  ({ db with messages := db.messages.map (markRead otherUserId userId) }, sorted)

/-- Result of POST /api/messages: the 403 NotMatched rejection or the id of
the inserted row. -/
inductive SendResult where
  | notMatched : SendResult
  | sent : Nat → SendResult
deriving DecidableEq, Repr

/-- POST /api/messages from src/api_backend.py: look up the canonical pair
in matches (the WHERE clause repeats the same min/max condition twice),
reject with NotMatched when absent, otherwise insert the message unread
and return its id. -/
def send_message (db : DB) (userId receiverId : Nat) (content : String) :
    DB × SendResult :=
  if db.matchRows.any (fun m =>
      (m.user1 == min userId receiverId && m.user2 == max userId receiverId)
        || (m.user1 == min userId receiverId
            && m.user2 == max userId receiverId)) then
    ({ db with
        messages := db.messages
          ++ [⟨db.nextMessageId, userId, receiverId, content, false, db.clock⟩],
        nextMessageId := db.nextMessageId + 1, clock := db.clock + 1 },
     SendResult.sent db.nextMessageId)
  else (db, SendResult.notMatched)

/-- Membership test for the unordered user pair on a match row. -/
def pairPredB (a b : Nat) (m : MatchRow) : Bool :=
  (m.user1 == a && m.user2 == b) || (m.user1 == b && m.user2 == a)

/-- Rows of the matches table for the unordered user pair. -/
def pairRows (l : List MatchRow) (a b : Nat) : List MatchRow :=
  l.filter (pairPredB a b)

/-- A match record for the unordered user pair exists. -/
def matchPairExists (db : DB) (a b : Nat) : Prop :=
  ∃ m ∈ db.matchRows, (m.user1 = a ∧ m.user2 = b) ∨ (m.user1 = b ∧ m.user2 = a)

/-- Every row for the unordered pair sits in the canonical min/max slots. -/
def pairCanon (l : List MatchRow) (a b : Nat) : Prop :=
  ∀ m ∈ l, pairPredB a b m = true → m.user1 = min a b ∧ m.user2 = max a b

/-- Run a sequence of like swipes, each given as (actor, target car). -/
def runLikes (db : DB) (acts : List (Nat × Nat)) : DB :=
  acts.foldl (fun d p => (swipe d p.1 p.2 "like").1) db

/-- Rewrite the soft-delete flag of every listing according to f; models an
arbitrary sequence of external soft-deletes and reactivations. -/
def setCarFlags (f : Nat → Bool) (db : DB) : DB :=
  { db with cars := db.cars.map (fun c => { c with isActive := f c.id }) }

/-- At most one ledger row per (user, car) pair, the UNIQUE constraint of
the likes table and of the dismissals table. -/
def ledgerUnique (rows : List Like) : Prop :=
  List.Pairwise (fun a b => ¬(a.userId = b.userId ∧ a.carId = b.carId)) rows

/-- Two users, each owning one active listing, no interaction yet. -/
def dbPair : DB :=
  { users := [⟨1, "jack", "NY"⟩, ⟨2, "bob", "LA"⟩],
    cars := [⟨5, 1, "Porsche", "911", "P", true⟩,
             ⟨10, 2, "Mazda", "MX5", "M", true⟩],
    likes := [], dismissals := [], matchRows := [], messages := [],
    nextMessageId := 1, clock := 0 }

/-- One user owning one active listing, no interaction yet. -/
def dbSelf : DB :=
  { users := [⟨1, "jack", "NY"⟩],
    cars := [⟨5, 1, "Porsche", "911", "P", true⟩],
    likes := [], dismissals := [], matchRows := [], messages := [],
    nextMessageId := 1, clock := 0 }

/-- One user owning one active listing, id layout distinct from dbSelf. -/
def dbSelfB : DB :=
  { users := [⟨3, "amy", "SF"⟩],
    cars := [⟨7, 3, "Honda", "S2000", "H", true⟩],
    likes := [], dismissals := [], matchRows := [], messages := [],
    nextMessageId := 1, clock := 0 }

/-- User 2 owns a soft-deleted listing 10 and has already liked listing 5
of user 1; only the like on the inactive listing 10 is still missing. -/
def dbInactive : DB :=
  { users := [⟨1, "jack", "NY"⟩, ⟨2, "bob", "LA"⟩],
    cars := [⟨5, 1, "Porsche", "911", "P", true⟩,
             ⟨10, 2, "Mazda", "MX5", "M", false⟩],
    likes := [⟨2, 5⟩], dismissals := [], matchRows := [], messages := [],
    nextMessageId := 1, clock := 0 }

/-- Same situation as dbInactive with a different id layout. -/
def dbInactiveB : DB :=
  { users := [⟨3, "amy", "SF"⟩, ⟨4, "zed", "TX"⟩],
    cars := [⟨7, 3, "Honda", "S2000", "H", true⟩,
             ⟨8, 4, "Toyota", "Supra", "T", false⟩],
    likes := [⟨4, 7⟩], dismissals := [], matchRows := [], messages := [],
    nextMessageId := 1, clock := 0 }

/-- User 1 has already liked listing 10 of user 2. -/
def dbLiked : DB :=
  { users := [⟨1, "jack", "NY"⟩, ⟨2, "bob", "LA"⟩],
    cars := [⟨10, 2, "Mazda", "MX5", "M", true⟩],
    likes := [⟨1, 10⟩], dismissals := [], matchRows := [], messages := [],
    nextMessageId := 1, clock := 0 }

/-- Users 1 and 2 are matched and user 2 has sent user 1 one unread
message. -/
def dbMatched : DB :=
  { users := [⟨1, "jack", "NY"⟩, ⟨2, "bob", "LA"⟩],
    cars := [⟨5, 1, "Porsche", "911", "P", true⟩,
             ⟨10, 2, "Mazda", "MX5", "M", true⟩],
    likes := [⟨1, 10⟩, ⟨2, 5⟩], dismissals := [],
    matchRows := [⟨1, 2, 5, 10, 1⟩],
    messages := [⟨1, 2, 1, "hey", false, 2⟩],
    nextMessageId := 2, clock := 3 }

theorem like_eta (l : Like) : l = ⟨l.userId, l.carId⟩ := rfl

theorem likes_any_iff_mem (rows : List Like) (u c : Nat) :
    rows.any (fun l => l.userId == u && l.carId == c) = true
      ↔ (⟨u, c⟩ : Like) ∈ rows := by
  rw [List.any_eq_true]
  constructor
  · rintro ⟨l, hl, hp⟩
    simp only [Bool.and_eq_true, beq_iff_eq] at hp
    have : l = (⟨u, c⟩ : Like) := by
      rw [like_eta l, hp.1, hp.2]
    exact this ▸ hl
  · intro h
    exact ⟨⟨u, c⟩, h, by simp⟩

theorem insertOrIgnore_of_mem {rows : List Like} {u c : Nat}
    (h : (⟨u, c⟩ : Like) ∈ rows) : insertOrIgnore rows u c = rows := by
  unfold insertOrIgnore
  rw [if_pos ((likes_any_iff_mem rows u c).mpr h)]

theorem mem_insertOrIgnore {rows : List Like} {u c : Nat} {l : Like} :
    l ∈ insertOrIgnore rows u c ↔ l ∈ rows ∨ l = ⟨u, c⟩ := by
  unfold insertOrIgnore
  split
  · rename_i h
    constructor
    · exact Or.inl
    · rintro (h1 | rfl)
      · exact h1
      · exact (likes_any_iff_mem rows u c).mp h
  · simp [List.mem_append]

theorem mem_insertOrIgnore_of_mem {rows : List Like} {u c : Nat} {l : Like}
    (h : l ∈ rows) : l ∈ insertOrIgnore rows u c :=
  mem_insertOrIgnore.mpr (Or.inl h)

theorem self_mem_insertOrIgnore (rows : List Like) (u c : Nat) :
    (⟨u, c⟩ : Like) ∈ insertOrIgnore rows u c :=
  mem_insertOrIgnore.mpr (Or.inr rfl)

theorem ledgerUnique_insertOrIgnore {rows : List Like} (u c : Nat)
    (h : ledgerUnique rows) : ledgerUnique (insertOrIgnore rows u c) := by
  unfold insertOrIgnore
  split
  · exact h
  · rename_i hany
    unfold ledgerUnique
    rw [List.pairwise_append]
    refine ⟨h, List.pairwise_singleton _ _, ?_⟩
    intro x hx b hb
    rw [List.mem_singleton] at hb
    subst hb
    intro ⟨h1, h2⟩
    have : rows.any (fun l => l.userId == u && l.carId == c) = true :=
      List.any_eq_true.mpr ⟨x, hx, by simp [h1, h2]⟩
    simp [this] at hany

theorem perm_insertByKey {α : Type} (key : α → Nat) (x : α) (l : List α) :
    (insertByKey key x l).Perm (x :: l) := by
  induction l with
  | nil => simp [insertByKey]
  | cons y ys ih =>
    unfold insertByKey
    split
    · exact List.Perm.refl _
    · exact (ih.cons y).trans (List.Perm.swap x y ys)

theorem perm_sortByKey {α : Type} (key : α → Nat) (l : List α) :
    (sortByKey key l).Perm l := by
  induction l with
  | nil => simp [sortByKey]
  | cons y ys ih =>
    exact (perm_insertByKey key y (sortByKey key ys)).trans (ih.cons y)

theorem mem_sortByKey {α : Type} (key : α → Nat) (l : List α) (a : α) :
    a ∈ sortByKey key l ↔ a ∈ l :=
  (perm_sortByKey key l).mem_iff

theorem perm_insertByKeyDesc {α : Type} (key : α → Nat) (x : α) (l : List α) :
    (insertByKeyDesc key x l).Perm (x :: l) := by
  induction l with
  | nil => simp [insertByKeyDesc]
  | cons y ys ih =>
    unfold insertByKeyDesc
    split
    · exact List.Perm.refl _
    · exact (ih.cons y).trans (List.Perm.swap x y ys)

theorem perm_sortByKeyDesc {α : Type} (key : α → Nat) (l : List α) :
    (sortByKeyDesc key l).Perm l := by
  induction l with
  | nil => simp [sortByKeyDesc]
  | cons y ys ih =>
    exact (perm_insertByKeyDesc key y (sortByKeyDesc key ys)).trans (ih.cons y)

theorem mem_sortByKeyDesc {α : Type} (key : α → Nat) (l : List α) (a : α) :
    a ∈ sortByKeyDesc key l ↔ a ∈ l :=
  (perm_sortByKeyDesc key l).mem_iff

theorem sorted_insertByKey {α : Type} (key : α → Nat) (x : α) {l : List α}
    (h : List.Pairwise (fun a b => key a ≤ key b) l) :
    List.Pairwise (fun a b => key a ≤ key b) (insertByKey key x l) := by
  induction l with
  | nil => simp [insertByKey]
  | cons y ys ih =>
    obtain ⟨hy, hys⟩ := List.pairwise_cons.mp h
    unfold insertByKey
    split
    · rename_i hxy
      refine List.pairwise_cons.mpr ⟨?_, h⟩
      intro z hz
      rcases List.mem_cons.mp hz with rfl | hz2
      · exact hxy
      · exact le_trans hxy (hy z hz2)
    · rename_i hxy
      have hyx : key y ≤ key x := le_of_not_le hxy
      refine List.pairwise_cons.mpr ⟨?_, ih hys⟩
      intro z hz
      rcases List.mem_cons.mp ((perm_insertByKey key x ys).mem_iff.mp hz)
        with rfl | hz2
      · exact hyx
      · exact hy z hz2

theorem sorted_sortByKey {α : Type} (key : α → Nat) (l : List α) :
    List.Pairwise (fun a b => key a ≤ key b) (sortByKey key l) := by
  induction l with
  | nil => simp [sortByKey]
  | cons y ys ih => exact sorted_insertByKey key y ih

theorem findCar_setCarFlags (f : Nat → Bool) (cars : List Car) (cid : Nat) :
    findCar (cars.map (fun c => { c with isActive := f c.id })) cid
      = (findCar cars cid).map (fun c => { c with isActive := f c.id }) := by
  unfold findCar
  rw [List.find?_map]
  rfl

theorem carsAny_setCarFlags (f : Nat → Bool) (cars : List Car) (x y : Nat) :
    (cars.map (fun c => { c with isActive := f c.id })).any
        (fun c => c.id == x && c.ownerId == y)
      = cars.any (fun c => c.id == x && c.ownerId == y) := by
  rw [List.any_map]
  rfl

theorem findReciprocalLike_setCarFlags (f : Nat → Bool) (likes : List Like)
    (cars : List Car) (likerId ownerId : Nat) :
    findReciprocalLike likes (cars.map (fun c => { c with isActive := f c.id }))
        likerId ownerId
      = findReciprocalLike likes cars likerId ownerId := by
  unfold findReciprocalLike
  simp only [carsAny_setCarFlags]

theorem swipe_setCarFlags (f : Nat → Bool) (db : DB) (u c : Nat) (a : String) :
    swipe (setCarFlags f db) u c a
      = (setCarFlags f (swipe db u c a).1, (swipe db u c a).2) := by
  unfold swipe
  split_ifs
  · dsimp only [setCarFlags]
    rw [findCar_setCarFlags]
    cases hfc : findCar db.cars c with
    | none => rfl
    | some theirCar =>
      dsimp only [Option.map]
      rw [findReciprocalLike_setCarFlags]
      cases hrl : findReciprocalLike (insertOrIgnore db.likes u c) db.cars
          theirCar.ownerId u with
      | none => rfl
      | some myCarId => rfl
  · rfl
  · rfl

theorem viewOf_setCarFlags (f : Nat → Bool) (db : DB) (uid : Nat) (m : MatchRow) :
    viewOf (setCarFlags f db) uid m = viewOf db uid m := by
  unfold viewOf
  dsimp only [setCarFlags]
  rw [findCar_setCarFlags]
  cases hu : findUser db.users (if m.user1 == uid then m.user2 else m.user1) with
  | none =>
    cases hc : findCar db.cars (if m.user1 == uid then m.car2 else m.car1) with
    | none => rfl
    | some c0 => rfl
  | some u0 =>
    cases hc : findCar db.cars (if m.user1 == uid then m.car2 else m.car1) with
    | none => rfl
    | some c0 => rfl

theorem get_matches_setCarFlags (f : Nat → Bool) (db : DB) (uid : Nat) :
    get_matches (setCarFlags f db) uid = get_matches db uid := by
  unfold get_matches
  have h1 : (setCarFlags f db).matchRows = db.matchRows := rfl
  rw [h1]
  exact List.filterMap_congr (fun m _ => viewOf_setCarFlags f db uid m)

theorem pairPredB_of_minmax {a b : Nat} (m : MatchRow)
    (h1 : m.user1 = min a b) (h2 : m.user2 = max a b) :
    pairPredB a b m = true := by
  unfold pairPredB
  rcases le_total a b with hab | hba
  · simp [h1, h2, min_eq_left hab, max_eq_right hab]
  · simp [h1, h2, min_eq_right hba, max_eq_left hba]

theorem canon_of_pairPredB {a b : Nat} {m : MatchRow} (hle : m.user1 ≤ m.user2)
    (hp : pairPredB a b m = true) :
    m.user1 = min a b ∧ m.user2 = max a b := by
  unfold pairPredB at hp
  simp only [Bool.or_eq_true, Bool.and_eq_true, beq_iff_eq] at hp
  rcases hp with ⟨ha, hb⟩ | ⟨ha, hb⟩
  · subst ha; subst hb
    exact ⟨(min_eq_left hle).symm, (max_eq_right hle).symm⟩
  · subst ha; subst hb
    refine ⟨?_, ?_⟩
    · rw [min_comm]
      exact (min_eq_left hle).symm
    · rw [max_comm]
      exact (max_eq_right hle).symm

theorem insertMatch_pair_core (a b : Nat) (l : List MatchRow) (row : MatchRow)
    (hrow : row.user1 ≤ row.user2)
    (hcanon : pairCanon l a b)
    (hcnt : (pairRows l a b).length ≤ 1) :
    pairCanon (insertMatch l row) a b
    ∧ (pairRows (insertMatch l row) a b).length ≤ 1
    ∧ (pairRows l a b).length ≤ (pairRows (insertMatch l row) a b).length
    ∧ (pairPredB a b row = true →
        (pairRows (insertMatch l row) a b).length = 1) := by
  unfold insertMatch
  split
  · rename_i hg
    refine ⟨hcanon, hcnt, le_refl _, ?_⟩
    intro hp
    obtain ⟨r, hr, hpr⟩ := List.any_eq_true.mp hg
    simp only [Bool.and_eq_true, beq_iff_eq] at hpr
    obtain ⟨hc1, hc2⟩ := canon_of_pairPredB hrow hp
    have hpr2 : pairPredB a b r = true :=
      pairPredB_of_minmax r (hpr.1.trans hc1) (hpr.2.trans hc2)
    have hmem : r ∈ pairRows l a b := List.mem_filter.mpr ⟨hr, hpr2⟩
    have hpos := List.length_pos.mpr (List.ne_nil_of_mem hmem)
    omega
  · rename_i hg
    cases hp : pairPredB a b row with
    | false =>
      have heq : pairRows (l ++ [row]) a b = pairRows l a b := by
        unfold pairRows
        rw [List.filter_append]
        simp [hp]
      refine ⟨?_, by rw [heq]; exact hcnt, by rw [heq], ?_⟩
      · intro m hm hpm
        rcases List.mem_append.mp hm with h | h
        · exact hcanon m h hpm
        · rw [List.mem_singleton] at h
          subst h
          rw [hp] at hpm
          cases hpm
      · intro hcontra
        cases hcontra
    | true =>
      obtain ⟨hc1, hc2⟩ := canon_of_pairPredB hrow hp
      have hcnt0 : pairRows l a b = [] := by
        by_contra hne
        obtain ⟨r, hr⟩ := List.exists_mem_of_ne_nil _ hne
        have hrl := (List.mem_filter.mp hr).1
        have hrp := (List.mem_filter.mp hr).2
        obtain ⟨h1, h2⟩ := hcanon r hrl hrp
        apply hg
        exact List.any_eq_true.mpr ⟨r, hrl, by
          simp only [Bool.and_eq_true, beq_iff_eq]
          exact ⟨h1.trans hc1.symm, h2.trans hc2.symm⟩⟩
      have heq : pairRows (l ++ [row]) a b = [row] := by
        unfold pairRows
        rw [List.filter_append]
        unfold pairRows at hcnt0
        rw [hcnt0]
        simp [hp]
      refine ⟨?_, by rw [heq]; simp, ?_, fun _ => by rw [heq]; simp⟩
      · intro m hm hpm
        rcases List.mem_append.mp hm with h | h
        · exact hcanon m h hpm
        · rw [List.mem_singleton] at h
          subst h
          exact ⟨hc1, hc2⟩
      · rw [heq, hcnt0]
        simp

theorem swipe_matchRows_shape (db : DB) (u c : Nat) (act : String) :
    (swipe db u c act).1.matchRows = db.matchRows
    ∨ ∃ x y my their t, (swipe db u c act).1.matchRows
        = insertMatch db.matchRows ⟨min x y, max x y, my, their, t⟩ := by
  unfold swipe
  split_ifs
  · cases hfc : findCar db.cars c with
    | none => left; rfl
    | some theirCar =>
      dsimp only
      cases hrl : findReciprocalLike (insertOrIgnore db.likes u c) db.cars
          theirCar.ownerId u with
      | none => left; rfl
      | some myCarId =>
        right
        exact ⟨u, theirCar.ownerId, myCarId, theirCar.id, db.clock, rfl⟩
  · left; rfl
  · left; rfl

theorem swipe_pair_inv (db : DB) (u c a b : Nat) (act : String)
    (hcanon : pairCanon db.matchRows a b)
    (hcnt : (pairRows db.matchRows a b).length ≤ 1) :
    pairCanon (swipe db u c act).1.matchRows a b
    ∧ (pairRows (swipe db u c act).1.matchRows a b).length ≤ 1
    ∧ (pairRows db.matchRows a b).length
        ≤ (pairRows (swipe db u c act).1.matchRows a b).length := by
  rcases swipe_matchRows_shape db u c act with h | ⟨x, y, my, their, t, h⟩
  · rw [h]
    exact ⟨hcanon, hcnt, le_refl _⟩
  · rw [h]
    have hcore := insertMatch_pair_core a b db.matchRows
      ⟨min x y, max x y, my, their, t⟩ min_le_max hcanon hcnt
    exact ⟨hcore.1, hcore.2.1, hcore.2.2.1⟩

theorem swipe_cars (db : DB) (u c : Nat) (act : String) :
    (swipe db u c act).1.cars = db.cars := by
  unfold swipe
  split_ifs
  · cases findCar db.cars c with
    | none => rfl
    | some theirCar =>
      dsimp only
      cases findReciprocalLike (insertOrIgnore db.likes u c) db.cars
          theirCar.ownerId u with
      | none => rfl
      | some m => rfl
  · rfl
  · rfl

theorem swipe_likes_mono {db : DB} {u c : Nat} {act : String} {l : Like}
    (h : l ∈ db.likes) : l ∈ (swipe db u c act).1.likes := by
  unfold swipe
  split_ifs
  · cases findCar db.cars c with
    | none => exact mem_insertOrIgnore_of_mem h
    | some theirCar =>
      dsimp only
      cases findReciprocalLike (insertOrIgnore db.likes u c) db.cars
          theirCar.ownerId u with
      | none => exact mem_insertOrIgnore_of_mem h
      | some m => exact mem_insertOrIgnore_of_mem h
  · exact h
  · exact h

theorem swipe_like_self (db : DB) (u c : Nat) :
    (⟨u, c⟩ : Like) ∈ (swipe db u c "like").1.likes := by
  unfold swipe
  rw [if_pos rfl]
  cases findCar db.cars c with
  | none => exact self_mem_insertOrIgnore _ u c
  | some theirCar =>
    dsimp only
    cases findReciprocalLike (insertOrIgnore db.likes u c) db.cars
        theirCar.ownerId u with
    | none => exact self_mem_insertOrIgnore _ u c
    | some m => exact self_mem_insertOrIgnore _ u c

theorem swipe_completes (db : DB) (A B LA LB : Nat)
    (hcA : ∃ cA, findCar db.cars LA = some cA ∧ cA.ownerId = A)
    (hcB : ∃ cB, findCar db.cars LB = some cB ∧ cB.ownerId = B)
    (hlike : (⟨B, LA⟩ : Like) ∈ db.likes)
    (hcanon : pairCanon db.matchRows A B)
    (hcnt : (pairRows db.matchRows A B).length ≤ 1) :
    (pairRows (swipe db A LB "like").1.matchRows A B).length = 1 := by
  obtain ⟨cA, hcA1, hcA2⟩ := hcA
  obtain ⟨cB, hcB1, hcB2⟩ := hcB
  have hmem : (⟨B, LA⟩ : Like) ∈ insertOrIgnore db.likes A LB :=
    mem_insertOrIgnore_of_mem hlike
  have hcAid : cA.id = LA := by
    have := List.find?_some hcA1
    simpa using this
  have hpred : ((⟨B, LA⟩ : Like).userId == cB.ownerId
      && db.cars.any (fun cc => cc.id == (⟨B, LA⟩ : Like).carId
          && cc.ownerId == A)) = true := by
    simp only [Bool.and_eq_true, beq_iff_eq]
    refine ⟨hcB2.symm, ?_⟩
    exact List.any_eq_true.mpr ⟨cA, List.mem_of_find?_eq_some hcA1, by
      simp [hcAid, hcA2]⟩
  have hsome : ((insertOrIgnore db.likes A LB).find? (fun lk =>
      lk.userId == cB.ownerId && db.cars.any (fun cc =>
        cc.id == lk.carId && cc.ownerId == A))).isSome = true :=
    List.find?_isSome.mpr ⟨⟨B, LA⟩, hmem, hpred⟩
  obtain ⟨lk, hlk⟩ := Option.isSome_iff_exists.mp hsome
  have hrec : findReciprocalLike (insertOrIgnore db.likes A LB) db.cars
      cB.ownerId A = some lk.carId := by
    unfold findReciprocalLike
    rw [hlk]
    rfl
  have hrows : (swipe db A LB "like").1.matchRows
      = insertMatch db.matchRows
          ⟨min A B, max A B, lk.carId, cB.id, db.clock⟩ := by
    unfold swipe
    rw [if_pos rfl]
    rw [show findCar db.cars LB = some cB from hcB1]
    dsimp only
    rw [hrec]
    dsimp only
    rw [hcB2]
  rw [hrows]
  exact (insertMatch_pair_core A B db.matchRows _ min_le_max hcanon hcnt).2.2.2
    (pairPredB_of_minmax _ rfl rfl)

theorem pairPredB_comm (a b : Nat) (m : MatchRow) :
    pairPredB a b m = pairPredB b a m := by
  unfold pairPredB
  exact Bool.or_comm _ _

theorem pairRows_comm (l : List MatchRow) (a b : Nat) :
    pairRows l a b = pairRows l b a := by
  unfold pairRows
  exact List.filter_congr (fun m _ => pairPredB_comm a b m)

theorem pairCanon_comm {l : List MatchRow} {a b : Nat} (h : pairCanon l a b) :
    pairCanon l b a := by
  intro m hm hp
  obtain ⟨h1, h2⟩ := h m hm ((pairPredB_comm a b m) ▸ hp)
  exact ⟨h1.trans (min_comm a b), h2.trans (max_comm a b)⟩

theorem runLikes_cons (db : DB) (p : Nat × Nat) (acts : List (Nat × Nat)) :
    runLikes db (p :: acts) = runLikes (swipe db p.1 p.2 "like").1 acts := rfl

theorem runLikes_cars (acts : List (Nat × Nat)) (db : DB) :
    (runLikes db acts).cars = db.cars := by
  induction acts generalizing db with
  | nil => rfl
  | cons p rest ih =>
    rw [runLikes_cons, ih, swipe_cars]

theorem runLikes_pair_inv (acts : List (Nat × Nat)) (db : DB) (a b : Nat)
    (hcanon : pairCanon db.matchRows a b)
    (hcnt : (pairRows db.matchRows a b).length ≤ 1) :
    pairCanon (runLikes db acts).matchRows a b
    ∧ (pairRows (runLikes db acts).matchRows a b).length ≤ 1
    ∧ (pairRows db.matchRows a b).length
        ≤ (pairRows (runLikes db acts).matchRows a b).length := by
  induction acts generalizing db with
  | nil => exact ⟨hcanon, hcnt, le_refl _⟩
  | cons p rest ih =>
    rw [runLikes_cons]
    obtain ⟨h1, h2, h3⟩ := swipe_pair_inv db p.1 p.2 a b "like" hcanon hcnt
    obtain ⟨g1, g2, g3⟩ := ih _ h1 h2
    exact ⟨g1, g2, le_trans h3 g3⟩

theorem runLikes_keeps_one (acts : List (Nat × Nat)) (db : DB) (a b : Nat)
    (hcanon : pairCanon db.matchRows a b)
    (h1 : (pairRows db.matchRows a b).length = 1) :
    (pairRows (runLikes db acts).matchRows a b).length = 1 := by
  obtain ⟨_, g2, g3⟩ := runLikes_pair_inv acts db a b hcanon (le_of_eq h1)
  omega

theorem runLikes_pending (acts : List (Nat × Nat)) (db : DB) (A B LA LB : Nat)
    (hcA : ∃ cA, findCar db.cars LA = some cA ∧ cA.ownerId = A)
    (hcB : ∃ cB, findCar db.cars LB = some cB ∧ cB.ownerId = B)
    (hlike : (⟨B, LA⟩ : Like) ∈ db.likes)
    (hmem : (A, LB) ∈ acts)
    (hcanon : pairCanon db.matchRows A B)
    (hcnt : (pairRows db.matchRows A B).length ≤ 1) :
    (pairRows (runLikes db acts).matchRows A B).length = 1 := by
  induction acts generalizing db with
  | nil => cases hmem
  | cons p rest ih =>
    rw [runLikes_cons]
    have hcars := swipe_cars db p.1 p.2 "like"
    have hstep := swipe_pair_inv db p.1 p.2 A B "like" hcanon hcnt
    rcases List.mem_cons.mp hmem with hp | hrest
    · rw [← hp]
      have hdone := swipe_completes db A B LA LB hcA hcB hlike hcanon hcnt
      have hcanon2 : pairCanon (swipe db A LB "like").1.matchRows A B :=
        (swipe_pair_inv db A LB A B "like" hcanon hcnt).1
      exact runLikes_keeps_one rest _ A B hcanon2 hdone
    · refine ih _ ?_ ?_ (swipe_likes_mono hlike) hrest hstep.1 hstep.2.1
      · rw [hcars]
        exact hcA
      · rw [hcars]
        exact hcB

theorem runLikes_both (acts : List (Nat × Nat)) (db : DB) (A B LA LB : Nat)
    (hAB : A ≠ B)
    (hcA : ∃ cA, findCar db.cars LA = some cA ∧ cA.ownerId = A)
    (hcB : ∃ cB, findCar db.cars LB = some cB ∧ cB.ownerId = B)
    (hA_in : (A, LB) ∈ acts) (hB_in : (B, LA) ∈ acts)
    (hcanon : pairCanon db.matchRows A B)
    (hcnt : (pairRows db.matchRows A B).length ≤ 1) :
    (pairRows (runLikes db acts).matchRows A B).length = 1 := by
  induction acts generalizing db with
  | nil => cases hA_in
  | cons p rest ih =>
    rw [runLikes_cons]
    have hcars := swipe_cars db p.1 p.2 "like"
    have hstep := swipe_pair_inv db p.1 p.2 A B "like" hcanon hcnt
    rcases List.mem_cons.mp hA_in with hpA | hA_rest
    · rcases List.mem_cons.mp hB_in with hpB | hB_rest
      · exfalso
        have hABeq : ((A, LB) : Nat × Nat) = (B, LA) := hpA.trans hpB.symm
        injection hABeq with h1 h2
        exact hAB h1
      · rw [← hpA]
        have hlike1 : (⟨A, LB⟩ : Like) ∈ (swipe db A LB "like").1.likes :=
          swipe_like_self db A LB
        have hcarsA := swipe_cars db A LB "like"
        have hstepA := swipe_pair_inv db A LB A B "like" hcanon hcnt
        have hpend := runLikes_pending rest (swipe db A LB "like").1 B A LB LA
          (by rw [hcarsA]; exact hcB) (by rw [hcarsA]; exact hcA) hlike1 hB_rest
          (pairCanon_comm hstepA.1)
          (by rw [pairRows_comm _ B A]; exact hstepA.2.1)
        rw [pairRows_comm _ A B]
        exact hpend
    · rcases List.mem_cons.mp hB_in with hpB | hB_rest
      · rw [← hpB]
        have hlike1 : (⟨B, LA⟩ : Like) ∈ (swipe db B LA "like").1.likes :=
          swipe_like_self db B LA
        have hcarsB := swipe_cars db B LA "like"
        have hstepB := swipe_pair_inv db B LA A B "like" hcanon hcnt
        exact runLikes_pending rest (swipe db B LA "like").1 A B LA LB
          (by rw [hcarsB]; exact hcA) (by rw [hcarsB]; exact hcB) hlike1 hA_rest
          hstepB.1 hstepB.2.1
      · refine ih _ ?_ ?_ hA_rest hB_rest hstep.1 hstep.2.1
        · rw [hcars]
          exact hcA
        · rw [hcars]
          exact hcB

/-- C1: for distinct users A and B with listings LA owned by A and LB owned
by B, running any sequence built from the two like swipes A-likes-LB and
B-likes-LA, each occurring at least once and in any order and multiplicity,
leaves exactly one match record for the unordered pair of A and B, starting
from a state with no match record for that pair. -/
theorem mutual_like_exactly_one_match (db : DB) (A B LA LB : Nat)
    (acts : List (Nat × Nat))
    (hAB : A ≠ B)
    (hcA : ∃ cA, findCar db.cars LA = some cA ∧ cA.ownerId = A)
    (hcB : ∃ cB, findCar db.cars LB = some cB ∧ cB.ownerId = B)
    (h0 : pairRows db.matchRows A B = [])
    (hacts : ∀ p ∈ acts, p = (A, LB) ∨ p = (B, LA))
    (hA_in : (A, LB) ∈ acts) (hB_in : (B, LA) ∈ acts) :
    (pairRows (runLikes db acts).matchRows A B).length = 1 := by
  have hcanon : pairCanon db.matchRows A B := by
    intro m hm hp
    exfalso
    have hmem2 : m ∈ pairRows db.matchRows A B := List.mem_filter.mpr ⟨hm, hp⟩
    rw [h0] at hmem2
    cases hmem2
  have hcnt : (pairRows db.matchRows A B).length ≤ 1 := by
    rw [h0]
    simp
  exact runLikes_both acts db A B LA LB hAB hcA hcB hA_in hB_in hcanon hcnt

/-- Witness for C1 at a concrete state: users 1 and 2, listings 5 and 10,
likes run in the order 1-likes-10, 2-likes-5, 1-likes-10 again. -/
theorem mutual_like_exactly_one_match_witness :
    (pairRows (runLikes dbPair [(1, 10), (2, 5), (1, 10)]).matchRows 1 2).length = 1 :=
  mutual_like_exactly_one_match dbPair 1 2 5 10 [(1, 10), (2, 5), (1, 10)]
    (by decide)
    ⟨⟨5, 1, "Porsche", "911", "P", true⟩, by decide⟩
    ⟨⟨10, 2, "Mazda", "MX5", "M", true⟩, by decide⟩
    (by decide)
    (by decide)
    (by decide)
    (by decide)

theorem swipe_like_state (db : DB) (u c : Nat) :
    (swipe db u c "like").1.likes = insertOrIgnore db.likes u c
    ∧ (swipe db u c "like").1.dismissals = db.dismissals := by
  unfold swipe
  rw [if_pos rfl]
  cases findCar db.cars c with
  | none => exact ⟨rfl, rfl⟩
  | some theirCar =>
    dsimp only
    cases findReciprocalLike (insertOrIgnore db.likes u c) db.cars
        theirCar.ownerId u with
    | none => exact ⟨rfl, rfl⟩
    | some m => exact ⟨rfl, rfl⟩

theorem swipe_nope_state (db : DB) (u c : Nat) :
    (swipe db u c "nope").1.dismissals = insertOrIgnore db.dismissals u c
    ∧ (swipe db u c "nope").1.likes = db.likes := by
  unfold swipe
  rw [if_neg (by decide), if_pos rfl]
  exact ⟨rfl, rfl⟩

theorem swipe_likes_shape (db : DB) (u c : Nat) (act : String) :
    (swipe db u c act).1.likes = insertOrIgnore db.likes u c
    ∨ (swipe db u c act).1.likes = db.likes := by
  unfold swipe
  split_ifs
  · cases findCar db.cars c with
    | none => exact Or.inl rfl
    | some theirCar =>
      dsimp only
      cases findReciprocalLike (insertOrIgnore db.likes u c) db.cars
          theirCar.ownerId u with
      | none => exact Or.inl rfl
      | some m => exact Or.inl rfl
  · exact Or.inr rfl
  · exact Or.inr rfl

theorem swipe_dismissals_shape (db : DB) (u c : Nat) (act : String) :
    (swipe db u c act).1.dismissals = insertOrIgnore db.dismissals u c
    ∨ (swipe db u c act).1.dismissals = db.dismissals := by
  unfold swipe
  split_ifs
  · cases findCar db.cars c with
    | none => exact Or.inr rfl
    | some theirCar =>
      dsimp only
      cases findReciprocalLike (insertOrIgnore db.likes u c) db.cars
          theirCar.ownerId u with
      | none => exact Or.inr rfl
      | some m => exact Or.inr rfl
  · exact Or.inl rfl
  · exact Or.inr rfl

/-- C3: code bug in the swipe handler — there is no self-interest guard.
From dbSelf, user 1 likes their own listing 5: the interest is recorded,
a self match row pairing user 1 with themself is created, and the call
reports a match instead of failing. -/
theorem swipe_self_like_bug :
    (swipe dbSelf 1 5 "like").1.likes = [⟨1, 5⟩]
    ∧ (swipe dbSelf 1 5 "like").1.matchRows = [⟨1, 1, 5, 5, 0⟩]
    ∧ (swipe dbSelf 1 5 "like").2.matched = true := by
  refine ⟨?_, ?_, ?_⟩ <;> rfl

/-- C5 counterexample: in dbLiked an interest record by user 1 on listing
10 already exists (a like), yet a further nope swipe by user 1 on listing
10 changes the stored interest state by inserting a dismissal row, so the
pair then carries two interest records. -/
theorem reswipe_opposite_polarity_counterexample :
    (⟨1, 10⟩ : Like) ∈ dbLiked.likes
    ∧ (swipe dbLiked 1 10 "nope").1.dismissals ≠ dbLiked.dismissals
    ∧ (swipe dbLiked 1 10 "nope").1.dismissals = [⟨1, 10⟩]
    ∧ dbLiked.dismissals = [] := by
  refine ⟨by decide, by decide, ?_, rfl⟩
  rfl

/-- C5 amended: a re-swipe with the same polarity is a no-op on the
interest ledgers, and each ledger keeps at most one row per (actor,
target) pair; but likes and dismissals are separate ledgers, so a swipe
of the opposite polarity inserts a second interest record for the pair
rather than being ignored. -/
theorem reswipe_ledger_behavior (db : DB) (u c : Nat) (act : String) :
    ((⟨u, c⟩ : Like) ∈ db.likes →
      (swipe db u c "like").1.likes = db.likes
      ∧ (swipe db u c "like").1.dismissals = db.dismissals)
    ∧ ((⟨u, c⟩ : Like) ∈ db.dismissals →
      (swipe db u c "nope").1.dismissals = db.dismissals
      ∧ (swipe db u c "nope").1.likes = db.likes)
    ∧ (ledgerUnique db.likes → ledgerUnique (swipe db u c act).1.likes)
    ∧ (ledgerUnique db.dismissals →
      ledgerUnique (swipe db u c act).1.dismissals) := by
  refine ⟨?_, ?_, ?_, ?_⟩
  · intro h
    obtain ⟨h1, h2⟩ := swipe_like_state db u c
    rw [h1, h2, insertOrIgnore_of_mem h]
    exact ⟨rfl, rfl⟩
  · intro h
    obtain ⟨h1, h2⟩ := swipe_nope_state db u c
    rw [h1, h2, insertOrIgnore_of_mem h]
    exact ⟨rfl, rfl⟩
  · intro h
    rcases swipe_likes_shape db u c act with hs | hs
    · rw [hs]
      exact ledgerUnique_insertOrIgnore u c h
    · rw [hs]
      exact h
  · intro h
    rcases swipe_dismissals_shape db u c act with hs | hs
    · rw [hs]
      exact ledgerUnique_insertOrIgnore u c h
    · rw [hs]
      exact h

/-- Witness for C5 at a concrete state: a repeated like by user 1 on
listing 10 leaves the ledgers of dbLiked unchanged. -/
theorem reswipe_ledger_behavior_witness :
    (swipe dbLiked 1 10 "like").1.likes = dbLiked.likes
    ∧ (swipe dbLiked 1 10 "like").1.dismissals = dbLiked.dismissals :=
  (reswipe_ledger_behavior dbLiked 1 10 "like").1 (by decide)

/-- C6 counterexample: from dbSelfB, user 3 likes their own listing 7; the
swipe creates a match row whose two user slots are equal, so the first
user id of a swipe-created row is not always strictly lower than the
second, and the row does not pair two distinct users. -/
theorem match_row_not_strict_counterexample :
    (swipe dbSelfB 3 7 "like").1.matchRows = [⟨3, 3, 7, 7, 0⟩]
    ∧ ¬ ((3 : Nat) < 3) := by
  exact ⟨rfl, by decide⟩

/-- C6 amended: every match row the swipe handler creates stores the
swiper and the target owner as min and max, so user1 ≤ user2 always
holds, and user1 < user2 holds whenever the swiper is not the owner of
the target listing; equality occurs exactly on self matches. -/
theorem swipe_match_rows_canonical (db : DB) (u c : Nat) (act : String)
    (hcanon : ∀ m ∈ db.matchRows, m.user1 ≤ m.user2) :
    (∀ m ∈ (swipe db u c act).1.matchRows, m.user1 ≤ m.user2)
    ∧ (∀ m ∈ (swipe db u c act).1.matchRows, m ∉ db.matchRows →
        ∃ car, findCar db.cars c = some car
          ∧ m.user1 = min u car.ownerId ∧ m.user2 = max u car.ownerId
          ∧ (u ≠ car.ownerId → m.user1 < m.user2)) := by
  unfold swipe
  split_ifs
  · cases hfc : findCar db.cars c with
    | none => exact ⟨hcanon, fun m hm hnm => absurd hm hnm⟩
    | some theirCar =>
      dsimp only
      cases hrl : findReciprocalLike (insertOrIgnore db.likes u c) db.cars
          theirCar.ownerId u with
      | none => exact ⟨hcanon, fun m hm hnm => absurd hm hnm⟩
      | some myCarId =>
        dsimp only
        constructor
        · intro m hm
          unfold insertMatch at hm
          split at hm
          · exact hcanon m hm
          · rcases List.mem_append.mp hm with h | h
            · exact hcanon m h
            · rw [List.mem_singleton] at h
              subst h
              exact min_le_max
        · intro m hm hnm
          unfold insertMatch at hm
          split at hm
          · exact absurd hm hnm
          · rcases List.mem_append.mp hm with h | h
            · exact absurd h hnm
            · rw [List.mem_singleton] at h
              subst h
              exact ⟨theirCar, rfl, rfl, rfl, fun hne => min_lt_max.mpr hne⟩
  · exact ⟨hcanon, fun m hm hnm => absurd hm hnm⟩
  · exact ⟨hcanon, fun m hm hnm => absurd hm hnm⟩

/-- Witness for C6 at a concrete state: the completing like of user 1 on
listing 10 in dbInactive creates rows that satisfy the min/max slot
ordering. -/
theorem swipe_match_rows_canonical_witness :
    (∀ m ∈ (swipe dbInactive 1 10 "like").1.matchRows, m.user1 ≤ m.user2)
    ∧ (∀ m ∈ (swipe dbInactive 1 10 "like").1.matchRows,
        m ∉ dbInactive.matchRows →
        ∃ car, findCar dbInactive.cars 10 = some car
          ∧ m.user1 = min 1 car.ownerId ∧ m.user2 = max 1 car.ownerId
          ∧ (1 ≠ car.ownerId → m.user1 < m.user2)) :=
  swipe_match_rows_canonical dbInactive 1 10 "like" (by decide)

/-- C4 counterexample: listing 10 of dbInactive is inactive, yet a like
swipe by user 1 on it is not a stored-state no-op reported as matched
false: the call reports a match, records the like interest, and creates a
match row. -/
theorem invalid_target_counterexample :
    findCar dbInactive.cars 10
      = some ⟨10, 2, "Mazda", "MX5", "M", false⟩
    ∧ (swipe dbInactive 1 10 "like").2.matched = true
    ∧ (swipe dbInactive 1 10 "like").1.likes ≠ dbInactive.likes
    ∧ (swipe dbInactive 1 10 "like").1.matchRows ≠ []
    ∧ findCar dbPair.cars 99 = none
    ∧ (swipe dbPair 1 99 "like").1.likes ≠ dbPair.likes := by
  refine ⟨rfl, rfl, by decide, by decide, by decide, by decide⟩

/-- C4 amended: a like on a listing id that is absent from the cars table
is surfaced as matched false without error and creates no match,
dismissal or message, but it does record a like interest row for the
actor and the missing id; the active flag is never consulted, so a like
on an inactive listing behaves exactly as on an active one. -/
theorem swipe_invalid_target_amended (db : DB) (u L : Nat) (f : Nat → Bool) :
    (findCar db.cars L = none →
      (swipe db u L "like").2.matched = false
      ∧ (swipe db u L "like").1.matchRows = db.matchRows
      ∧ (swipe db u L "like").1.dismissals = db.dismissals
      ∧ (swipe db u L "like").1.messages = db.messages
      ∧ (∀ lk : Like, lk ∈ (swipe db u L "like").1.likes
          ↔ lk ∈ db.likes ∨ lk = ⟨u, L⟩))
    ∧ swipe (setCarFlags f db) u L "like"
        = (setCarFlags f (swipe db u L "like").1, (swipe db u L "like").2) := by
  constructor
  · intro hnone
    unfold swipe
    rw [if_pos rfl, hnone]
    exact ⟨rfl, rfl, rfl, rfl, fun lk => mem_insertOrIgnore⟩
  · exact swipe_setCarFlags f db u L "like"

/-- Witness for C4 at a concrete state: listing 99 does not exist in
dbPair, and a like on it reports matched false. -/
theorem swipe_invalid_target_amended_witness :
    findCar dbPair.cars 99 = none
    ∧ (swipe dbPair 1 99 "like").2.matched = false :=
  ⟨by decide,
    ((swipe_invalid_target_amended dbPair 1 99 (fun _ => true)).1 (by decide)).1⟩

/-- C8 counterexample: listing 8 of dbInactiveB is soft-deleted, yet a
like swipe by user 3 on it still forms a new match anchored to the
inactive listing, so soft-deleted listings are not excluded from new
match consideration. -/
theorem soft_delete_counterexample :
    findCar dbInactiveB.cars 8
      = some ⟨8, 4, "Toyota", "Supra", "T", false⟩
    ∧ (swipe dbInactiveB 3 8 "like").2.matched = true
    ∧ (swipe dbInactiveB 3 8 "like").1.matchRows = [⟨3, 4, 7, 8, 0⟩] := by
  exact ⟨rfl, rfl, rfl⟩

/-- C8 amended: neither the swipe handler nor the match directory ever
consults the active flag: rewriting the soft-delete flags arbitrarily
changes neither the swipe outcome and resulting state nor the directory
listing, so an inactive listing still participates in new matches both as
target and as reciprocal listing, while matches created before a
soft-delete continue to be returned unchanged by the directory. -/
theorem soft_delete_no_exclusion (db : DB) (u c uid : Nat) (act : String)
    (f : Nat → Bool) :
    swipe (setCarFlags f db) u c act
      = (setCarFlags f (swipe db u c act).1, (swipe db u c act).2)
    ∧ get_matches (setCarFlags f db) uid = get_matches db uid :=
  ⟨swipe_setCarFlags f db u c act, get_matches_setCarFlags f db uid⟩

theorem matchPairExists_iff_pairPredB (db : DB) (a b : Nat) :
    matchPairExists db a b ↔ ∃ m ∈ db.matchRows, pairPredB a b m = true := by
  unfold matchPairExists pairPredB
  constructor <;> rintro ⟨m, hm, hp⟩ <;> refine ⟨m, hm, ?_⟩
  · simp only [Bool.or_eq_true, Bool.and_eq_true, beq_iff_eq]
    exact hp
  · simpa using hp

/-- C2: while the matches table keeps the canonical slot order the swipe
handler maintains, sending a message fails with NotMatched exactly when no
match record for the unordered sender and receiver pair exists; once one
exists, sending succeeds in either direction and returns the next message
id. -/
theorem send_message_gating (db : DB) (a b : Nat) (s t : String)
    (hcanon : ∀ m ∈ db.matchRows, m.user1 ≤ m.user2) :
    ((send_message db a b s).2 = SendResult.notMatched
      ↔ ¬ matchPairExists db a b)
    ∧ (matchPairExists db a b →
        (send_message db a b s).2 = SendResult.sent db.nextMessageId
        ∧ (send_message db b a t).2 = SendResult.sent db.nextMessageId) := by
  have hguard : ∀ x y : Nat, (db.matchRows.any (fun m =>
        (m.user1 == min x y && m.user2 == max x y)
          || (m.user1 == min x y && m.user2 == max x y))) = true
      ↔ matchPairExists db x y := by
    intro x y
    rw [List.any_eq_true]
    constructor
    · rintro ⟨m, hm, hp⟩
      simp only [Bool.or_self, Bool.and_eq_true, beq_iff_eq] at hp
      exact (matchPairExists_iff_pairPredB db x y).mpr
        ⟨m, hm, pairPredB_of_minmax m hp.1 hp.2⟩
    · intro hex
      obtain ⟨m, hm, hp⟩ := (matchPairExists_iff_pairPredB db x y).mp hex
      obtain ⟨h1, h2⟩ := canon_of_pairPredB (hcanon m hm) hp
      exact ⟨m, hm, by simp [h1, h2]⟩
  constructor
  · unfold send_message
    split
    · rename_i hg
      have hex := (hguard a b).mp hg
      constructor
      · intro h
        cases h
      · intro hn
        exact absurd hex hn
    · rename_i hg
      constructor
      · intro _ hex
        exact hg ((hguard a b).mpr hex)
      · intro _
        rfl
  · intro hex
    constructor
    · unfold send_message
      rw [if_pos ((hguard a b).mpr hex)]
    · unfold send_message
      have hex2 : matchPairExists db b a := by
        obtain ⟨m, hm, hp⟩ := hex
        exact ⟨m, hm, hp.symm⟩
      have hg := (hguard b a).mpr hex2
      rw [min_comm b a, max_comm b a] at hg
      rw [min_comm b a, max_comm b a, if_pos hg]

/-- Witness for C2 at a concrete state: users 1 and 2 are matched in
dbMatched, so sending from 1 to 2 yields the next message id. -/
theorem send_message_gating_witness :
    (send_message dbMatched 1 2 "hi").2
      = SendResult.sent dbMatched.nextMessageId :=
  ((send_message_gating dbMatched 1 2 "hi" "yo" (by decide)).2
    ⟨⟨1, 2, 5, 10, 1⟩, by decide, Or.inl ⟨rfl, rfl⟩⟩).1

theorem mem_get_matches (db : DB) (uid : Nat) (e : MatchView) :
    e ∈ get_matches db uid
      ↔ ∃ m ∈ db.matchRows, (m.user1 == uid || m.user2 == uid) = true
          ∧ viewOf db uid m = some e := by
  unfold get_matches
  rw [List.mem_filterMap]
  constructor
  · rintro ⟨m, hm, hv⟩
    have hm2 := (mem_sortByKeyDesc _ _ m).mp hm
    exact ⟨m, (List.mem_filter.mp hm2).1, (List.mem_filter.mp hm2).2, hv⟩
  · rintro ⟨m, hm, hp, hv⟩
    exact ⟨m, (mem_sortByKeyDesc _ _ m).mpr (List.mem_filter.mpr ⟨hm, hp⟩), hv⟩

theorem directory_symmetry_aux (db : DB) (a b la lb : Nat) (hab : a ≠ b)
    (hu_a : ∃ u ∈ db.users, u.id = a)
    (hc_la : ∃ car ∈ db.cars, car.id = la)
    (h : ∃ e ∈ get_matches db a,
      e.matchedUserId = b ∧ e.myCarId = la ∧ e.theirCarId = lb) :
    ∃ e ∈ get_matches db b,
      e.matchedUserId = a ∧ e.myCarId = lb ∧ e.theirCarId = la := by
  obtain ⟨e, he, hb, hmy, htheir⟩ := h
  obtain ⟨m, hm, hpm, hv⟩ := (mem_get_matches db a e).mp he
  obtain ⟨ua, hua, hua_id⟩ := hu_a
  obtain ⟨ca, hca, hca_id⟩ := hc_la
  have hfua : (findUser db.users a).isSome = true := by
    unfold findUser
    exact List.find?_isSome.mpr ⟨ua, hua, by simp [hua_id]⟩
  have hfca : (findCar db.cars la).isSome = true := by
    unfold findCar
    exact List.find?_isSome.mpr ⟨ca, hca, by simp [hca_id]⟩
  obtain ⟨u0, hu0⟩ := Option.isSome_iff_exists.mp hfua
  obtain ⟨c0, hc0⟩ := Option.isSome_iff_exists.mp hfca
  unfold viewOf at hv
  by_cases h1 : m.user1 = a
  · -- the row is stored with a in the first slot; e resolves m.user2
    simp only [h1, beq_self_eq_true, if_true] at hv
    cases hfu : findUser db.users m.user2 with
    | none =>
      rw [hfu] at hv
      cases hv
    | some uu =>
      cases hfc : findCar db.cars m.car2 with
      | none =>
        rw [hfu, hfc] at hv
        cases hv
      | some cc =>
        rw [hfu, hfc] at hv
        have he2 := Option.some.inj hv
        subst he2
        dsimp only at hb hmy htheir
        -- hb : m.user2 = b, hmy : m.car1 = la, htheir : m.car2 = lb
        refine ⟨{ matchedUserId := a, theirCarId := la, myCarId := lb,
                  matchedUsername := u0.username,
                  matchedLocation := u0.location,
                  theirCarLabel := c0.make ++ " " ++ c0.model,
                  theirEmoji := c0.emoji,
                  unreadCount := unreadFrom db.messages a b,
                  matchedAt := m.createdAt }, ?_, rfl, rfl, rfl⟩
        apply (mem_get_matches db b _).mpr
        refine ⟨m, hm, by simp [hb], ?_⟩
        unfold viewOf
        have hcond : (m.user1 == b) = false := by
          rw [h1]
          exact beq_eq_false_iff_ne.mpr hab
        simp only [hcond, Bool.false_eq_true, if_false]
        rw [h1, hmy, htheir, hu0, hc0]
  · -- a sits in the second slot; e resolves m.user1
    have hcond : (m.user1 == a) = false := beq_eq_false_iff_ne.mpr h1
    simp only [hcond, Bool.false_eq_true, if_false] at hv
    have h2 : m.user2 = a := by
      simp only [Bool.or_eq_true, beq_iff_eq] at hpm
      rcases hpm with h' | h'
      · exact absurd h' h1
      · exact h'
    cases hfu : findUser db.users m.user1 with
    | none =>
      rw [hfu] at hv
      cases hv
    | some uu =>
      cases hfc : findCar db.cars m.car1 with
      | none =>
        rw [hfu, hfc] at hv
        cases hv
      | some cc =>
        rw [hfu, hfc] at hv
        have he2 := Option.some.inj hv
        subst he2
        dsimp only at hb hmy htheir
        -- hb : m.user1 = b, hmy : m.car2 = la, htheir : m.car1 = lb
        refine ⟨{ matchedUserId := a, theirCarId := la, myCarId := lb,
                  matchedUsername := u0.username,
                  matchedLocation := u0.location,
                  theirCarLabel := c0.make ++ " " ++ c0.model,
                  theirEmoji := c0.emoji,
                  unreadCount := unreadFrom db.messages a b,
                  matchedAt := m.createdAt }, ?_, rfl, rfl, rfl⟩
        apply (mem_get_matches db b _).mpr
        refine ⟨m, hm, by simp [hb], ?_⟩
        unfold viewOf
        simp only [hb, beq_self_eq_true, if_true]
        rw [h2, hmy, htheir, hu0, hc0]

/-- C7: for distinct users a and b present in the users table and listing
ids la and lb present in the cars table, the directory of a contains an
entry for counterpart b with my-listing la and their-listing lb exactly
when the directory of b contains the mirrored entry for counterpart a
with my-listing lb and their-listing la. -/
theorem directory_symmetry (db : DB) (a b la lb : Nat) (hab : a ≠ b)
    (hu_a : ∃ u ∈ db.users, u.id = a) (hu_b : ∃ u ∈ db.users, u.id = b)
    (hc_la : ∃ car ∈ db.cars, car.id = la)
    (hc_lb : ∃ car ∈ db.cars, car.id = lb) :
    (∃ e ∈ get_matches db a,
      e.matchedUserId = b ∧ e.myCarId = la ∧ e.theirCarId = lb)
    ↔ (∃ e ∈ get_matches db b,
      e.matchedUserId = a ∧ e.myCarId = lb ∧ e.theirCarId = la) :=
  ⟨directory_symmetry_aux db a b la lb hab hu_a hc_la,
   directory_symmetry_aux db b a lb la (Ne.symm hab) hu_b hc_lb⟩

/-- Witness for C7 at a concrete state: the single match of dbMatched is
mirrored between the directories of users 1 and 2. -/
theorem directory_symmetry_witness :
    (∃ e ∈ get_matches dbMatched 1,
      e.matchedUserId = 2 ∧ e.myCarId = 5 ∧ e.theirCarId = 10)
    ↔ (∃ e ∈ get_matches dbMatched 2,
      e.matchedUserId = 1 ∧ e.myCarId = 10 ∧ e.theirCarId = 5) :=
  directory_symmetry dbMatched 1 2 5 10 (by decide)
    ⟨⟨1, "jack", "NY"⟩, by decide, rfl⟩
    ⟨⟨2, "bob", "LA"⟩, by decide, rfl⟩
    ⟨⟨5, 1, "Porsche", "911", "P", true⟩, by decide, rfl⟩
    ⟨⟨10, 2, "Mazda", "MX5", "M", true⟩, by decide, rfl⟩

theorem markRead_eq (x u : Nat) (m : Message) :
    markRead x u m
      = if m.senderId = x ∧ m.receiverId = u ∧ m.isRead = false
          then { m with isRead := true } else m := by
  unfold markRead
  by_cases h : m.senderId = x ∧ m.receiverId = u ∧ m.isRead = false
  · rw [if_pos (by simp [h.1, h.2.1, h.2.2]), if_pos h]
  · rw [if_neg ?_, if_neg h]
    simp only [Bool.and_eq_true, beq_iff_eq, and_assoc]
    exact h

/-- C9: reading the conversation with x as user u returns exactly the
rows of the pre-call message table between the two users, ordered by
creation time ascending and still carrying their pre-call read state; the
only effect on the state is that each stored message gains is_read when
it goes from x to u and was unread, every other message and every other
component of the state being unchanged. -/
theorem get_messages_read_effect (db : DB) (x u : Nat) :
    ((get_messages db x u).2).Perm (db.messages.filter (convBetween u x))
    ∧ List.Pairwise (fun m1 m2 => m1.createdAt ≤ m2.createdAt)
        (get_messages db x u).2
    ∧ (get_messages db x u).1.users = db.users
    ∧ (get_messages db x u).1.cars = db.cars
    ∧ (get_messages db x u).1.likes = db.likes
    ∧ (get_messages db x u).1.dismissals = db.dismissals
    ∧ (get_messages db x u).1.matchRows = db.matchRows
    ∧ (get_messages db x u).1.nextMessageId = db.nextMessageId
    ∧ (get_messages db x u).1.clock = db.clock
    ∧ (∀ i : Nat, (get_messages db x u).1.messages[i]?
        = (db.messages[i]?).map (fun m =>
            if m.senderId = x ∧ m.receiverId = u ∧ m.isRead = false
              then { m with isRead := true } else m)) := by
  refine ⟨perm_sortByKey _ _, sorted_sortByKey _ _,
    rfl, rfl, rfl, rfl, rfl, rfl, rfl, ?_⟩
  intro i
  show (db.messages.map (markRead x u))[i]? = _
  rw [List.getElem?_map]
  cases db.messages[i]? with
  | none => rfl
  | some m =>
    dsimp only [Option.map]
    rw [markRead_eq]

/-- C10: reading a conversation is not gated on the matches table: the
returned history and the resulting state of GET messages are the same
whatever match records exist, including none at all, and the mark-read
effect still happens, while sending with an empty matches table is
rejected with NotMatched — only sending is gated. -/
theorem get_messages_ungated (db : DB) (x u : Nat) (M : List MatchRow)
    (content : String) :
    (get_messages { db with matchRows := M } x u).2 = (get_messages db x u).2
    ∧ (get_messages { db with matchRows := M } x u).1
        = { (get_messages db x u).1 with matchRows := M }
    ∧ (send_message { db with matchRows := ([] : List MatchRow) } u x
        content).2 = SendResult.notMatched := by
  exact ⟨rfl, rfl, rfl⟩

end GearTrade
